import Mathlib

/-! Verification of the acrobot repository core, from `src/repo.py`.

Shallow embedding of `SqliteRepository` from `src/repo.py`.  The backing
SQLite table `acro_kvs` is modelled as a list of `(key, val)` rows in rowid
(insertion) order.  Each repository operation is translated statement by
statement from the Python source:

* `getM`     embeds `SqliteRepository.get`     (repo.py lines 80-93)
* `listKeysM` embeds `SqliteRepository.list_keys` (repo.py lines 95-104)
* `searchM`  embeds `SqliteRepository.search`  (repo.py lines 106-139)
* `addM`     embeds `SqliteRepository.add`     (repo.py lines 141-165)
* `removeM`  embeds `SqliteRepository.remove`  (repo.py lines 167-201)
* `deleteM`  embeds `SqliteRepository.delete`  (repo.py lines 203-214)

The schema file `sql/ddl.sql` is referenced by the tests but is not part of
the Python sources; where its content decides behaviour (the uniqueness
constraint on `(key, val)` and the full-text search index) the model follows
the specification's description, and the affected definitions say so in
their doc comments.

State-changing operations return `Except DbError (Result α × Store)`: an
`Except.error` models a raised database exception, in which case the
transaction is rolled back and the store keeps its pre-call contents (the
caller never observes a partially applied write).
-/

set_option autoImplicit false

namespace Acrobot

/-- Embeds `Status` from repo.py: `OK = "ok"`, `NO_KEY = "no_key"`,
`NO_VALUES = "no_values"`. -/
inductive Status where
  | OK
  | NO_KEY
  | NO_VALUES
  deriving DecidableEq, Repr

/-- Embeds `Result[T]` from repo.py: a frozen dataclass with a `status` and a
`data` payload. -/
structure Result (α : Type) where
  status : Status
  data : α
  deriving DecidableEq, Repr

/-- Hard database failures (raised exceptions, not `Result` statuses). -/
inductive DbError where
  | uniqueViolation
  deriving DecidableEq, Repr

/-- The `acro_kvs` base table: one `(key, val)` row per list entry, in
rowid (insertion) order. -/
abbrev Store : Type := List (String × String)

/-- Embeds `SELECT val FROM acro_kvs WHERE key = ?`: the values of the rows whose
key equals `k`, in rowid order. -/
def rowsFor (s : Store) (k : String) : List String :=
  (s.filter (fun r => r.1 == k)).map (fun r => r.2)

/-- Embeds `SqliteRepository.get` (repo.py 80-93): if no row has key `k`, return
`NO_KEY` with `[]`; otherwise return `OK` with
`[row["val"] for row in rows if row["val"]]` — Python truthiness drops
values that are the empty string. -/
def getM (s : Store) (k : String) : Result (List String) :=
  let rows := rowsFor s k
  if rows.isEmpty then ⟨Status.NO_KEY, []⟩
  else ⟨Status.OK, rows.filter (fun v => v != "")⟩

/-- Modelled from the spec: `sql/ddl.sql` is not among the Python sources,
and the spec requires "a base table storing `(key, value)` pairs with a
uniqueness constraint on the pair".  `INSERT INTO acro_kvs (key, val)
VALUES (?, ?)` therefore appends the row when the pair is new and raises a
constraint violation when the identical pair is already stored. -/
def insertPair (s : Store) (k v : String) : Except DbError Store :=
  if (k, v) ∈ s then Except.error DbError.uniqueViolation
  else Except.ok (s ++ [(k, v)])

/-- The insert loop of `add`/`remove`: one `INSERT` per value, inside a
single transaction.  An error anywhere aborts the transaction, so the
caller's store is unchanged on `Except.error`. -/
def insertAll (s : Store) (k : String) : List String → Except DbError Store
  | [] => Except.ok s
  | v :: rest =>
    match insertPair s k v with
    | Except.error e => Except.error e
    | Except.ok s' => insertAll s' k rest

/-- Embeds `SqliteRepository.delete` (repo.py 203-214): `get` first; if its status
is not `OK`, return `NO_KEY`; otherwise `DELETE FROM acro_kvs WHERE key = ?`
and return `OK`. -/
def deleteM (s : Store) (k : String) : Result Unit × Store :=
  if (getM s k).status ≠ Status.OK then (⟨Status.NO_KEY, ()⟩, s)
  else (⟨Status.OK, ()⟩, s.filter (fun r => r.1 != k))

/-- Embeds `SqliteRepository.add` (repo.py 141-165).  `if not values` guards the
empty list; `new_values = set(values) - existing_values` is modelled as
`values.dedup` with the values already visible through `get` filtered out
(Python set iteration order is unspecified; the model fixes first-occurrence
order, which only affects rowid order, never the value set). -/
def addM (s : Store) (k : String) (values : List String) :
    Except DbError (Result Unit × Store) :=
  if values.isEmpty then Except.ok (⟨Status.NO_VALUES, ()⟩, s)
  else
    let existing := (getM s k).data
    let newValues := values.dedup.filter (fun v => !(existing.contains v))
    if newValues.isEmpty then Except.ok (⟨Status.OK, ()⟩, s)
    else
      match insertAll s k newValues with
      | Except.error e => Except.error e
      | Except.ok s' => Except.ok (⟨Status.OK, ()⟩, s')

/-- Embeds `SqliteRepository.remove` (repo.py 167-201).  Empty `values` →
`NO_VALUES`; `get` not `OK` → `NO_KEY`; requested values not a subset of
the existing (visible) values → `NO_VALUES` with no change; remaining set
empty → delegate to `delete`; otherwise delete every row of the key and
reinsert exactly the remaining values in one transaction. -/
def removeM (s : Store) (k : String) (values : List String) :
    Except DbError (Result Unit × Store) :=
  if values.isEmpty then Except.ok (⟨Status.NO_VALUES, ()⟩, s)
  else
    let existingResult := getM s k
    if existingResult.status ≠ Status.OK then Except.ok (⟨Status.NO_KEY, ()⟩, s)
    else
      let existing := existingResult.data
      if !(values.all (fun v => existing.contains v)) then
        Except.ok (⟨Status.NO_VALUES, ()⟩, s)
      else
        let remaining := existing.dedup.filter (fun v => !(values.contains v))
        if remaining.isEmpty then Except.ok (⟨Status.OK, ()⟩, (deleteM s k).2)
        else
          match insertAll (s.filter (fun r => r.1 != k)) k remaining with
          | Except.error e => Except.error e
          | Except.ok s' => Except.ok (⟨Status.OK, ()⟩, s')

/-- Embeds `SELECT DISTINCT key FROM acro_kvs`: the distinct keys currently
present, in first-occurrence order. -/
def distinctKeys (s : Store) : List String :=
  (s.map (fun r => r.1)).dedup

/-- Embeds `SqliteRepository.list_keys` (repo.py 95-104):
`SELECT DISTINCT key FROM acro_kvs ORDER BY RANDOM() LIMIT 10`.  The random
shuffle is modelled by quantifying over an arbitrary permutation
`shuffled` of `distinctKeys s` in the theorems; the operation itself takes
the first 10 entries of that permutation and always reports `OK`. -/
def listKeysM (shuffled : List String) : Result (List String) :=
  ⟨Status.OK, shuffled.take 10⟩

/-- ASCII lowercasing of one character, the effect of Python's
`str.lower()` / SQL `lower()` on the ASCII range. -/
def lowerChar (c : Char) : Char :=
  if 'A' ≤ c ∧ c ≤ 'Z' then Char.ofNat (c.toNat + 32) else c

/-- Embeds `term.lower()` from repo.py line 116: lowercase every character. -/
def lowerStr (s : String) : String :=
  ⟨s.data.map lowerChar⟩

/-- Returns `true` iff `pat` occurs as a contiguous run inside `s` (both as char
lists). -/
def substrListB (pat : List Char) : List Char → Bool
  | [] => pat.isEmpty
  | c :: rest => pat.isPrefixOf (c :: rest) || substrListB pat rest

/-- Returns `true` iff `pat` occurs as a contiguous substring of `s`. -/
def substrB (pat s : String) : Bool :=
  substrListB pat.data s.data

/-- Returns `true` iff `pat` starts `s`. -/
def prefixB (pat s : String) : Bool :=
  pat.data.isPrefixOf s.data

/-- Modelled from the spec: the full-text index `acro_kvs_fts` is created
by `sql/ddl.sql`, which is not among the Python sources.  Per the spec the
index covers "both the key column and the value column" and matching is
case-insensitive and fuzzy (substring); a row matches the (already
lowercased) term when the term occurs in the lowercased key or the
lowercased value — the SQL `WHERE key MATCH ? OR val MATCH ?`. -/
def ftsMatch (t : String) (r : String × String) : Bool :=
  substrB t (lowerStr r.1) || substrB t (lowerStr r.2)

/-- Modelled from the spec: the index "ranks matches by textual relevance
(best match first; exact/prefix/substring matches outrank weaker matches)".
Bucket 0: the term equals the whole key or value; bucket 1: the term starts
the key or value; bucket 2: any other substring match. -/
def rankScore (t : String) (r : String × String) : Nat :=
  if lowerStr r.1 == t || lowerStr r.2 == t then 0
  else if prefixB t (lowerStr r.1) || prefixB t (lowerStr r.2) then 1
  else 2

/-- The CTE `ranked_rows`: the matching rows ordered by rank (bucket by
bucket; the order inside one bucket is unspecified by SQL, the model keeps
rowid order there). -/
def rankedMatches (s : Store) (t : String) : Store :=
  let m := s.filter (fun r => ftsMatch t r)
  m.filter (fun r => rankScore t r == 0) ++
    m.filter (fun r => rankScore t r == 1) ++
    m.filter (fun r => rankScore t r == 2)

/-- Embeds `SqliteRepository.search` (repo.py 106-139): empty term → `NO_KEY`;
otherwise lowercase the term, take the 10 best-ranked matching rows, keep
their distinct keys in rank order, and report `NO_KEY` when nothing
matched. -/
def searchM (s : Store) (term : String) : Result (List String) :=
  if term.isEmpty then ⟨Status.NO_KEY, []⟩
  else
    let t := lowerStr term
    let keys := (((rankedMatches s t).take 10).map (fun r => r.1)).dedup
    if keys.isEmpty then ⟨Status.NO_KEY, []⟩
    else ⟨Status.OK, keys⟩

/-- The set of all values stored for `k` (including empty-string values),
as a finset. -/
def storedSet (s : Store) (k : String) : Finset String :=
  (rowsFor s k).toFinset

/-- The set of values `add(k, values)` actually inserts: the requested
values minus the ones visible through `get`. -/
def addNewSet (s : Store) (k : String) (values : List String) : Finset String :=
  (values.dedup.filter (fun v => !((getM s k).data.contains v))).toFinset

instance {ε α : Type} [DecidableEq ε] [DecidableEq α] : DecidableEq (Except ε α) :=
  fun a b =>
    match a, b with
    | Except.error e, Except.error e' =>
      if h : e = e' then isTrue (by rw [h]) else isFalse (by intro hc; cases hc; exact h rfl)
    | Except.error _, Except.ok _ => isFalse (by intro hc; cases hc)
    | Except.ok _, Except.error _ => isFalse (by intro hc; cases hc)
    | Except.ok v, Except.ok v' =>
      if h : v = v' then isTrue (by rw [h]) else isFalse (by intro hc; cases hc; exact h rfl)

/-! Basic lemmas about the store model -/

theorem mem_rowsFor {s : Store} {k v : String} : v ∈ rowsFor s k ↔ (k, v) ∈ s := by
  simp only [rowsFor, List.mem_map, List.mem_filter, beq_iff_eq]
  constructor
  · rintro ⟨⟨a, b⟩, ⟨hr, hk⟩, hv⟩
    simp only at hk hv
    subst hk hv
    exact hr
  · intro h
    exact ⟨(k, v), ⟨h, rfl⟩, rfl⟩

theorem rowsFor_append (s t : Store) (k : String) :
    rowsFor (s ++ t) k = rowsFor s k ++ rowsFor t k := by
  simp [rowsFor, List.filter_append]

theorem rowsFor_map_self (l : List String) (k : String) :
    rowsFor (l.map (fun v => (k, v))) k = l := by
  simp [rowsFor, List.filter_map, Function.comp_def, List.map_map]

theorem rowsFor_filter_ne (s : Store) (k : String) :
    rowsFor (s.filter (fun r => r.1 != k)) k = [] := by
  simp only [rowsFor, List.filter_filter, List.map_eq_nil_iff, List.filter_eq_nil_iff]
  intro r _ h
  simp only [Bool.and_eq_true, beq_iff_eq, bne_iff_ne, ne_eq] at h
  exact h.2 h.1

theorem insertAll_ok {k : String} {l : List String} (hnd : l.Nodup) :
    ∀ {s : Store}, (∀ v ∈ l, (k, v) ∉ s) →
      insertAll s k l = Except.ok (s ++ l.map (fun v => (k, v))) := by
  induction l with
  | nil => intro s _; simp [insertAll]
  | cons v rest ih =>
    intro s hf
    obtain ⟨hv_rest, hrest_nd⟩ := List.nodup_cons.mp hnd
    have hv : (k, v) ∉ s := hf v (by simp)
    rw [insertAll, insertPair, if_neg hv]
    have hf' : ∀ w ∈ rest, (k, w) ∉ s ++ [(k, v)] := by
      intro w hw
      simp only [List.mem_append, List.mem_singleton, Prod.mk.injEq, not_or]
      refine ⟨hf w (List.mem_cons_of_mem v hw), ?_⟩
      rintro ⟨-, rfl⟩
      exact hv_rest hw
    show insertAll (s ++ [(k, v)]) k rest = _
    rw [ih hrest_nd hf']
    simp

theorem insertAll_nodup {k : String} : ∀ {l : List String} {s s' : Store},
    s.Nodup → insertAll s k l = Except.ok s' → s'.Nodup := by
  intro l
  induction l with
  | nil =>
    intro s s' hs h
    simp only [insertAll, Except.ok.injEq] at h
    exact h ▸ hs
  | cons v rest ih =>
    intro s s' hs h
    by_cases hv : (k, v) ∈ s
    · simp [insertAll, insertPair, hv] at h
    · rw [insertAll, insertPair, if_neg hv] at h
      refine ih ?_ h
      refine List.Nodup.append hs (List.nodup_singleton _) ?_
      intro x hx hx'
      rw [List.mem_singleton] at hx'
      exact hv (hx' ▸ hx)

theorem getM_of_nil {s : Store} {k : String} (h : rowsFor s k = []) :
    getM s k = ⟨Status.NO_KEY, []⟩ := by
  simp [getM, h]

theorem getM_of_ne_nil {s : Store} {k : String} (h : rowsFor s k ≠ []) :
    getM s k = ⟨Status.OK, (rowsFor s k).filter (fun v => v != "")⟩ := by
  simp [getM, List.isEmpty_iff, h]

theorem getM_data (s : Store) (k : String) :
    (getM s k).data = (rowsFor s k).filter (fun v => v != "") := by
  by_cases h : rowsFor s k = []
  · simp [getM_of_nil h, h]
  · simp [getM_of_ne_nil h]

theorem getM_status_ok_iff (s : Store) (k : String) :
    (getM s k).status = Status.OK ↔ rowsFor s k ≠ [] := by
  by_cases h : rowsFor s k = []
  · simp [getM_of_nil h, h]
  · simp [getM_of_ne_nil h, h]

theorem getM_data_of_no_empty_values {s : Store} {k : String}
    (hne : ∀ v ∈ rowsFor s k, v ≠ "") : (getM s k).data = rowsFor s k := by
  rw [getM_data, List.filter_eq_self]
  intro a ha
  simpa [bne_iff_ne] using hne a ha

theorem isEmpty_false_of_ne_nil {α : Type} {l : List α} (h : l ≠ []) :
    l.isEmpty = false := by
  simpa [List.isEmpty_eq_false] using h

/-! Claim theorems -/

/-- Claim C3 counterexample: The claim says a key with at least one stored
pair gets back `OK` with the full set of stored values.  But after
`add("k", [""])` — reachable from the empty store — the key `"k"` stores
exactly the pair `("k", "")`, while `get("k")` returns `OK` with data `[]`,
omitting the stored empty-string value. -/
theorem C3_counterexample :
    addM ([] : Store) "k" [""] = Except.ok (⟨Status.OK, ()⟩, [("k", "")]) ∧
    rowsFor [("k", "")] "k" = [""] ∧
    getM [("k", "")] "k" = ⟨Status.OK, []⟩ := by
  refine ⟨rfl, by decide, by decide⟩

/-- Claim C3 amended: For every key `K`: if `K` has zero stored pairs,
`get(K)` returns `NO_KEY` with an empty list; if `K` has at least one
stored pair, `get(K)` returns `OK` with data equal to the stored values of
`K` *with empty-string values omitted* (in particular, when no stored value
is the empty string, the data is exactly the full stored value list). -/
theorem C3_get_amended (s : Store) (k : String) :
    (rowsFor s k = [] → getM s k = ⟨Status.NO_KEY, []⟩) ∧
    (rowsFor s k ≠ [] →
      (getM s k).status = Status.OK ∧
      (getM s k).data = (rowsFor s k).filter (fun v => v != "")) := by
  constructor
  · exact getM_of_nil
  · intro h
    exact ⟨(getM_status_ok_iff s k).mpr h, getM_data s k⟩

/-- Witness for `C3_get_amended` at a concrete store. -/
theorem C3_get_amended_witness :
    rowsFor [("k", "a")] "k" ≠ [] ∧
    ((getM [("k", "a")] "k").status = Status.OK ∧
      (getM [("k", "a")] "k").data =
        (rowsFor [("k", "a")] "k").filter (fun v => v != "")) :=
  ⟨by decide, (C3_get_amended [("k", "a")] "k").2 (by decide)⟩

/-- Claim C4: `delete(K)` returns `NO_KEY` and changes nothing when `K` has
zero stored pairs; when `K` has at least one stored pair, `delete(K)`
removes every pair for `K`, returns `OK`, and a subsequent `get(K)`
returns `NO_KEY`. -/
theorem C4_delete (s : Store) (k : String) :
    (rowsFor s k = [] → deleteM s k = (⟨Status.NO_KEY, ()⟩, s)) ∧
    (rowsFor s k ≠ [] →
      (deleteM s k).1 = ⟨Status.OK, ()⟩ ∧
      rowsFor (deleteM s k).2 k = [] ∧
      getM (deleteM s k).2 k = ⟨Status.NO_KEY, []⟩) := by
  constructor
  · intro h
    simp [deleteM, getM_of_nil h]
  · intro h
    have hst : (getM s k).status = Status.OK := (getM_status_ok_iff s k).mpr h
    have hd : deleteM s k = (⟨Status.OK, ()⟩, s.filter (fun r => r.1 != k)) := by
      simp [deleteM, hst]
    refine ⟨by rw [hd], ?_, ?_⟩
    · rw [hd]
      exact rowsFor_filter_ne s k
    · rw [hd]
      exact getM_of_nil (rowsFor_filter_ne s k)

/-- Witness for `C4_delete`: deleting an absent and a present key. -/
theorem C4_delete_witness :
    (rowsFor ([] : Store) "k" = [] ∧ deleteM ([] : Store) "k" = (⟨Status.NO_KEY, ()⟩, [])) ∧
    (rowsFor [("k", "a")] "k" ≠ [] ∧
      (deleteM [("k", "a")] "k").1 = ⟨Status.OK, ()⟩ ∧
      rowsFor (deleteM [("k", "a")] "k").2 "k" = [] ∧
      getM (deleteM [("k", "a")] "k").2 "k" = ⟨Status.NO_KEY, []⟩) :=
  ⟨⟨by decide, (C4_delete [] "k").1 (by decide)⟩,
   ⟨by decide, (C4_delete [("k", "a")] "k").2 (by decide)⟩⟩

/-- Claim C5: `add(K, [])` returns `NO_VALUES` and has no side effect on the
store (the returned store is the argument store, unchanged); in particular
an absent key stays absent, so `get(K)` still returns `NO_KEY`. -/
theorem C5_add_empty (s : Store) (k : String) :
    addM s k [] = Except.ok (⟨Status.NO_VALUES, ()⟩, s) ∧
    (rowsFor s k = [] → getM s k = ⟨Status.NO_KEY, []⟩) := by
  exact ⟨rfl, getM_of_nil⟩

/-- Witness for `C5_add_empty` at a concrete store where `"k"` is absent. -/
theorem C5_add_empty_witness :
    rowsFor [("j", "x")] "k" = [] ∧
    (addM [("j", "x")] "k" [] = Except.ok (⟨Status.NO_VALUES, ()⟩, [("j", "x")]) ∧
      getM [("j", "x")] "k" = ⟨Status.NO_KEY, []⟩) :=
  ⟨by decide, (C5_add_empty [("j", "x")] "k").1, (C5_add_empty [("j", "x")] "k").2 (by decide)⟩

/-- Claim C10: `get(K)` never returns an empty-string value: every element of
the returned data is non-empty, and the returned data is, as a set, the
stored value set minus the empty string.  Consequently the set of values
`add(K, values)` inserts — computed from `get` by
`set(values) - existing_values` — is the requested set minus only the
*non-empty* stored values: a stored empty-string value does not block
reinsertion (it is treated as absent).  `remove` uses the same
`get`-derived set through `removeM`'s `existing` binding. -/
theorem C10_get_no_empty_string (s : Store) (k : String) (values : List String) :
    (∀ v ∈ (getM s k).data, v ≠ "") ∧
    ((getM s k).data.toFinset = storedSet s k \ {""}) ∧
    (addNewSet s k values = values.toFinset \ (storedSet s k \ {""})) := by
  refine ⟨?_, ?_, ?_⟩
  · intro v hv
    rw [getM_data] at hv
    exact (bne_iff_ne).mp (List.mem_filter.mp hv).2
  · ext x
    simp [getM_data, storedSet, List.mem_filter, bne_iff_ne]
  · ext x
    simp only [addNewSet, getM_data, storedSet, List.mem_toFinset, List.mem_filter,
      List.mem_dedup, Finset.mem_sdiff, Finset.mem_singleton, Bool.not_eq_true',
      bne_iff_ne, ne_eq]
    constructor
    · rintro ⟨hx, hc⟩
      refine ⟨hx, ?_⟩
      rintro ⟨hmem, hne⟩
      have : x ∈ (rowsFor s k).filter (fun v => v != "") :=
        List.mem_filter.mpr ⟨hmem, by simpa [bne_iff_ne] using hne⟩
      simp_all
    · rintro ⟨hx, hn⟩
      refine ⟨hx, ?_⟩
      rw [Bool.eq_false_iff]
      intro hc
      have hmem : x ∈ (rowsFor s k).filter (fun v => v != "") := by
        simpa using hc
      obtain ⟨hm, hne⟩ := List.mem_filter.mp hmem
      exact hn ⟨hm, (bne_iff_ne).mp hne⟩

/-- Claim C1 counterexample: After `add("k", [""])` (reachable from the empty
store) the stored value set of `"k"` is `{""}`, so the requested list
`[""]` is a subset of the existing set; the claim then demands `OK` and a
stored set of `∅`, but `remove("k", [""])` returns `NO_VALUES` and leaves
the store untouched — `get` hides the stored empty string, so `remove`
judges the subset test against `∅`. -/
theorem C1_counterexample :
    addM ([] : Store) "k" [""] = Except.ok (⟨Status.OK, ()⟩, [("k", "")]) ∧
    ([""] : List String).toFinset ⊆ storedSet [("k", "")] "k" ∧
    removeM [("k", "")] "k" [""] = Except.ok (⟨Status.NO_VALUES, ()⟩, [("k", "")]) :=
  ⟨rfl, by decide, rfl⟩

/-- Claim C1 amended: For every key `K` that has at least one stored pair
and none of whose stored values is the empty string, with existing value
set `E` and non-empty requested list `R`: `remove(K, R)` returns `OK` and
the stored set for `K` becomes exactly `E − R` if the set of `R` is a
subset of `E`; otherwise it returns `NO_VALUES` and the store is left
completely unchanged (no partial removal). -/
theorem C1_remove_amended (s : Store) (k : String) (values : List String)
    (hvalues : values ≠ []) (hrows : rowsFor s k ≠ [])
    (hne : ∀ v ∈ rowsFor s k, v ≠ "") :
    ((∀ v ∈ values, v ∈ rowsFor s k) →
      ∃ s', removeM s k values = Except.ok (⟨Status.OK, ()⟩, s') ∧
        storedSet s' k = storedSet s k \ values.toFinset) ∧
    (¬(∀ v ∈ values, v ∈ rowsFor s k) →
      removeM s k values = Except.ok (⟨Status.NO_VALUES, ()⟩, s)) := by
  have hfilter : (rowsFor s k).filter (fun v => v != "") = rowsFor s k := by
    rw [List.filter_eq_self]
    intro a ha
    simpa [bne_iff_ne] using hne a ha
  have hget : getM s k = ⟨Status.OK, rowsFor s k⟩ := by
    rw [getM_of_ne_nil hrows, hfilter]
  have hvne : values.isEmpty = false := isEmpty_false_of_ne_nil hvalues
  constructor
  · intro hsub
    have hnex : ¬∃ x ∈ values, x ∉ rowsFor s k := by
      push_neg
      exact hsub
    by_cases hcover : ∀ a ∈ rowsFor s k, a ∈ values
    · refine ⟨(deleteM s k).2, ?_, ?_⟩
      · simp only [removeM, hvne, Bool.false_eq_true, if_false, hget, ne_eq]
        simp [hnex, hcover]
        intro x hx hx'
        exact absurd (hcover x hx) hx'
      · have hdel : (deleteM s k).2 = s.filter (fun r => r.1 != k) := by
          simp [deleteM, hget]
        rw [hdel]
        have hleft : storedSet (s.filter (fun r => r.1 != k)) k = ∅ := by
          simp [storedSet, rowsFor_filter_ne]
        rw [hleft]
        symm
        rw [Finset.sdiff_eq_empty_iff_subset]
        intro x hx
        rw [storedSet, List.mem_toFinset] at hx
        exact List.mem_toFinset.mpr (hcover x hx)
    · set remaining := (rowsFor s k).dedup.filter (fun v => !(values.contains v)) with hrem
      have hnodup : remaining.Nodup := List.Nodup.filter _ (List.nodup_dedup _)
      have hfresh : ∀ v ∈ remaining, (k, v) ∉ s.filter (fun r => r.1 != k) := by
        intro v _ hc
        have : v ∈ rowsFor (s.filter (fun r => r.1 != k)) k := mem_rowsFor.mpr hc
        rw [rowsFor_filter_ne] at this
        simp at this
      have hins := insertAll_ok hnodup hfresh
      have hremne : remaining ≠ [] := by
        rw [hrem]
        intro hc
        refine hcover ?_
        intro a ha
        have := List.filter_eq_nil_iff.mp hc a (List.mem_dedup.mpr ha)
        simpa using this
      refine ⟨s.filter (fun r => r.1 != k) ++ remaining.map (fun v => (k, v)), ?_, ?_⟩
      · have hfe : List.filter (fun v => !decide (v ∈ values)) (rowsFor s k).dedup
            = remaining := by
          rw [hrem]
          simp
        simp only [removeM, hvne, Bool.false_eq_true, if_false, hget, ne_eq]
        simp [hnex, hcover, hfe, hins, hremne]
      · have hrows' : rowsFor
            (s.filter (fun r => r.1 != k) ++ remaining.map (fun v => (k, v))) k
            = remaining := by
          rw [rowsFor_append, rowsFor_filter_ne, rowsFor_map_self, List.nil_append]
        simp only [storedSet, hrows']
        ext x
        rw [hrem]
        simp only [List.mem_toFinset, List.mem_filter, List.mem_dedup,
          Finset.mem_sdiff, Bool.not_eq_true']
        constructor
        · rintro ⟨hx, hc⟩
          refine ⟨hx, ?_⟩
          intro hx'
          simp [hx'] at hc
        · rintro ⟨hx, hn⟩
          refine ⟨hx, ?_⟩
          rw [Bool.eq_false_iff]
          intro hc
          exact hn (by simpa using hc)
  · intro hnsub
    have hex : ∃ x ∈ values, x ∉ rowsFor s k := by
      push_neg at hnsub
      exact hnsub
    simp [removeM, hvne, hget, hex]

/-- Witness for `C1_remove_amended`: removing `"a"` from a key storing
`{"a", "b"}` (the subset branch). -/
theorem C1_remove_amended_witness :
    (["a"] : List String) ≠ [] ∧
    rowsFor [("k", "a"), ("k", "b")] "k" ≠ [] ∧
    (∀ v ∈ rowsFor [("k", "a"), ("k", "b")] "k", v ≠ "") ∧
    (((∀ v ∈ ["a"], v ∈ rowsFor [("k", "a"), ("k", "b")] "k") →
      ∃ s', removeM [("k", "a"), ("k", "b")] "k" ["a"] = Except.ok (⟨Status.OK, ()⟩, s') ∧
        storedSet s' "k" = storedSet [("k", "a"), ("k", "b")] "k" \ (["a"] : List String).toFinset) ∧
    (¬(∀ v ∈ ["a"], v ∈ rowsFor [("k", "a"), ("k", "b")] "k") →
      removeM [("k", "a"), ("k", "b")] "k" ["a"] =
        Except.ok (⟨Status.NO_VALUES, ()⟩, [("k", "a"), ("k", "b")]))) :=
  ⟨by decide, by decide, by decide,
   C1_remove_amended [("k", "a"), ("k", "b")] "k" ["a"] (by decide) (by decide) (by decide)⟩

/-- Claim C2 counterexample: With `V1 = [""]` and `V2 = ["a"]` on a fresh key
(both lists non-empty), `add("k", [""]); add("k", ["a"])` succeeds, but the
value set `get("k")` then yields is `{"a"}`, not `V1 ∪ V2 = {"", "a"}`:
`get` filters out the stored empty-string value. -/
theorem C2_counterexample :
    addM ([] : Store) "k" [""] = Except.ok (⟨Status.OK, ()⟩, [("k", "")]) ∧
    addM [("k", "")] "k" ["a"] = Except.ok (⟨Status.OK, ()⟩, [("k", ""), ("k", "a")]) ∧
    (getM [("k", ""), ("k", "a")] "k").data.toFinset = {"a"} ∧
    ({"a"} : Finset String) ≠ ([""] : List String).toFinset ∪ (["a"] : List String).toFinset :=
  ⟨rfl, rfl, by decide, by decide⟩

/-- Claim C2 amended: For every initially absent key `K` and non-empty
lists `V1`, `V2` of *non-empty* strings: `add(K, V1); add(K, V2)` both
return `OK`, and `get(K)` afterwards returns `OK` with a value set equal to
`V1 ∪ V2` — independent of duplicates inside either list (the result is the
set union) and of the call order (the union is commutative, and the
statement holds for arbitrary `V1`, `V2`, so swapping the two calls yields
the same set). -/
theorem C2_add_add_amended (s : Store) (k : String) (v₁ v₂ : List String)
    (habsent : rowsFor s k = []) (h₁ : v₁ ≠ []) (h₂ : v₂ ≠ [])
    (hne₁ : ∀ x ∈ v₁, x ≠ "") (hne₂ : ∀ x ∈ v₂, x ≠ "") :
    ∃ s₁ s₂, addM s k v₁ = Except.ok (⟨Status.OK, ()⟩, s₁) ∧
      addM s₁ k v₂ = Except.ok (⟨Status.OK, ()⟩, s₂) ∧
      (getM s₂ k).status = Status.OK ∧
      (getM s₂ k).data.toFinset = v₁.toFinset ∪ v₂.toFinset ∧
      v₁.toFinset ∪ v₂.toFinset = v₂.toFinset ∪ v₁.toFinset := by
  have hget₁ : getM s k = ⟨Status.NO_KEY, []⟩ := getM_of_nil habsent
  have hd₁ : v₁.dedup ≠ [] := by simpa [List.dedup_eq_nil] using h₁
  have hfresh₁ : ∀ v ∈ v₁.dedup, (k, v) ∉ s := by
    intro v _ hc
    have hv : v ∈ rowsFor s k := mem_rowsFor.mpr hc
    rw [habsent] at hv
    simp at hv
  have hins₁ := insertAll_ok (List.nodup_dedup v₁) hfresh₁
  have hadd₁ : addM s k v₁ =
      Except.ok (⟨Status.OK, ()⟩, s ++ v₁.dedup.map (fun v => (k, v))) := by
    simp [addM, isEmpty_false_of_ne_nil h₁, hget₁, hins₁, hd₁]
  set s₁ := s ++ v₁.dedup.map (fun v => (k, v)) with hs₁
  have hrows₁ : rowsFor s₁ k = v₁.dedup := by
    rw [hs₁, rowsFor_append, habsent, rowsFor_map_self, List.nil_append]
  have hrows₁ne : rowsFor s₁ k ≠ [] := by
    rw [hrows₁]
    exact hd₁
  have hget₂ : getM s₁ k = ⟨Status.OK, v₁.dedup⟩ := by
    have hf : (rowsFor s₁ k).filter (fun v => v != "") = v₁.dedup := by
      rw [hrows₁, List.filter_eq_self]
      intro a ha
      simpa [bne_iff_ne] using hne₁ a (List.mem_dedup.mp ha)
    rw [getM_of_ne_nil hrows₁ne, hf]
  by_cases hcase : v₂.dedup.filter (fun v => !(v₁.dedup.contains v)) = []
  · have hPsub : ∀ x ∈ v₂, x ∈ v₁ := by
      intro x hx
      have hxd := List.filter_eq_nil_iff.mp hcase x (List.mem_dedup.mpr hx)
      simp only [Bool.not_eq_true', Bool.not_eq_false] at hxd
      exact List.mem_dedup.mp (by simpa using hxd)
    have hadd₂ : addM s₁ k v₂ = Except.ok (⟨Status.OK, ()⟩, s₁) := by
      have hfe : v₂.dedup.filter (fun v => !decide (v ∈ v₁)) = [] := by
        rw [List.filter_eq_nil_iff]
        intro a ha
        simp [hPsub a (List.mem_dedup.mp ha)]
      simp [addM, isEmpty_false_of_ne_nil h₂, hget₂, hfe, hPsub]
    refine ⟨s₁, s₁, hadd₁, hadd₂, ?_, ?_, Finset.union_comm _ _⟩
    · rw [hget₂]
    · rw [hget₂]
      show v₁.dedup.toFinset = _
      ext x
      simp only [List.mem_toFinset, List.mem_dedup, Finset.mem_union]
      constructor
      · exact fun h => Or.inl h
      · rintro (h | h)
        · exact h
        · exact hPsub x h
  · set nv₂ := v₂.dedup.filter (fun v => !(v₁.dedup.contains v)) with hnv₂
    have hP : ¬∀ x ∈ v₂, x ∈ v₁ := by
      intro hall
      apply hcase
      rw [hnv₂, List.filter_eq_nil_iff]
      intro a ha
      simpa using List.mem_dedup.mpr (hall a (List.mem_dedup.mp ha))
    have hnodup₂ : nv₂.Nodup := List.Nodup.filter _ (List.nodup_dedup _)
    have hfresh₂ : ∀ v ∈ nv₂, (k, v) ∉ s₁ := by
      intro v hv hc
      have hmem : v ∈ rowsFor s₁ k := mem_rowsFor.mpr hc
      rw [hrows₁] at hmem
      have := (List.mem_filter.mp (hnv₂ ▸ hv)).2
      simp [hmem] at this
    have hins₂ := insertAll_ok hnodup₂ hfresh₂
    have hadd₂ : addM s₁ k v₂ =
        Except.ok (⟨Status.OK, ()⟩, s₁ ++ nv₂.map (fun v => (k, v))) := by
      have hfe : v₂.dedup.filter (fun v => !decide (v ∈ v₁)) = nv₂ := by
        rw [hnv₂]
        apply List.filter_congr
        intro x _
        simp [List.mem_dedup]
      simp [addM, isEmpty_false_of_ne_nil h₂, hget₂, hfe, hins₂, hcase, hP]
    set s₂ := s₁ ++ nv₂.map (fun v => (k, v)) with hs₂
    have hrows₂ : rowsFor s₂ k = v₁.dedup ++ nv₂ := by
      rw [hs₂, rowsFor_append, hrows₁, rowsFor_map_self]
    have hrows₂ne : rowsFor s₂ k ≠ [] := by
      rw [hrows₂]
      intro hc
      exact hd₁ (List.append_eq_nil.mp hc).1
    have hget₃ : getM s₂ k = ⟨Status.OK, v₁.dedup ++ nv₂⟩ := by
      have hf : (rowsFor s₂ k).filter (fun v => v != "") = v₁.dedup ++ nv₂ := by
        rw [hrows₂, List.filter_eq_self]
        intro a ha
        rcases List.mem_append.mp ha with h | h
        · simpa [bne_iff_ne] using hne₁ a (List.mem_dedup.mp h)
        · have : a ∈ v₂.dedup := (List.mem_filter.mp (hnv₂ ▸ h)).1
          simpa [bne_iff_ne] using hne₂ a (List.mem_dedup.mp this)
      rw [getM_of_ne_nil hrows₂ne, hf]
    refine ⟨s₁, s₂, hadd₁, hadd₂, ?_, ?_, Finset.union_comm _ _⟩
    · rw [hget₃]
    · rw [hget₃]
      show (v₁.dedup ++ nv₂).toFinset = _
      ext x
      simp only [List.toFinset_append, Finset.mem_union, List.mem_toFinset,
        List.mem_dedup, hnv₂, List.mem_filter, Bool.not_eq_true']
      constructor
      · rintro (h | ⟨h, -⟩)
        · exact Or.inl h
        · exact Or.inr h
      · rintro (h | h)
        · exact Or.inl h
        · by_cases hx : x ∈ v₁
          · exact Or.inl hx
          · refine Or.inr ⟨h, ?_⟩
            rw [Bool.eq_false_iff]
            intro hc
            exact hx (List.mem_dedup.mp (by simpa using hc))

/-- Witness for `C2_add_add_amended`: `V1 = ["a"]`, `V2 = ["b"]` on the
empty store. -/
theorem C2_add_add_amended_witness :
    rowsFor ([] : Store) "k" = [] ∧
    (∃ s₁ s₂, addM ([] : Store) "k" ["a"] = Except.ok (⟨Status.OK, ()⟩, s₁) ∧
      addM s₁ "k" ["b"] = Except.ok (⟨Status.OK, ()⟩, s₂) ∧
      (getM s₂ "k").status = Status.OK ∧
      (getM s₂ "k").data.toFinset =
        (["a"] : List String).toFinset ∪ (["b"] : List String).toFinset ∧
      (["a"] : List String).toFinset ∪ (["b"] : List String).toFinset =
        (["b"] : List String).toFinset ∪ (["a"] : List String).toFinset) :=
  ⟨by decide,
   C2_add_add_amended [] "k" ["a"] ["b"] (by decide) (by decide) (by decide)
     (by decide) (by decide)⟩

/-- Claim C6: `search("")` returns `NO_KEY` with an empty list, and a
non-empty term matching no stored row also returns `NO_KEY` with an empty
list.  Neither case escapes as an exception: `searchM` is a total function
into `Result` (it has no `Except` error channel at all), mirroring the code
path that returns a `Result` value instead of raising. -/
theorem C6_search_no_match (s : Store) (term : String) :
    searchM s "" = ⟨Status.NO_KEY, []⟩ ∧
    (term ≠ "" → (∀ r ∈ s, ftsMatch (lowerStr term) r = false) →
      searchM s term = ⟨Status.NO_KEY, []⟩) := by
  constructor
  · rfl
  · intro hterm hnom
    have hfe : s.filter (fun r => ftsMatch (lowerStr term) r) = [] := by
      rw [List.filter_eq_nil_iff]
      intro r hr
      simp [hnom r hr]
    have htermE : term.isEmpty = false := by
      rw [Bool.eq_false_iff]
      intro hc
      exact hterm ((String.isEmpty_iff term).mp hc)
    simp [searchM, htermE, rankedMatches, hfe]

/-- Witness for `C6_search_no_match`: term `"zz"` against a store holding
only `("Key1", "Value1")`. -/
theorem C6_search_no_match_witness :
    ("zz" : String) ≠ "" ∧
    (∀ r ∈ [("Key1", "Value1")], ftsMatch (lowerStr "zz") r = false) ∧
    searchM [("Key1", "Value1")] "zz" = ⟨Status.NO_KEY, []⟩ :=
  ⟨by decide, by decide,
   (C6_search_no_match [("Key1", "Value1")] "zz").2 (by decide) (by decide)⟩

/-- Claim C7: `search` is case-insensitive in the term: two non-empty terms
with the same lowercase form produce identical results on every store
(the code lowercases the term before querying the index); concretely,
after `add("Key1", ["Value1"])` on the empty store, `search("key1")`
returns a result whose data contains the key `"Key1"`. -/
theorem C7_search_case_insensitive :
    (∀ (s : Store) (t₁ t₂ : String), t₁ ≠ "" → t₂ ≠ "" →
      lowerStr t₁ = lowerStr t₂ → searchM s t₁ = searchM s t₂) ∧
    (addM ([] : Store) "Key1" ["Value1"] =
        Except.ok (⟨Status.OK, ()⟩, [("Key1", "Value1")]) ∧
      "Key1" ∈ (searchM [("Key1", "Value1")] "key1").data) := by
  constructor
  · intro s t₁ t₂ h₁ h₂ hlow
    have e₁ : t₁.isEmpty = false := by
      rw [Bool.eq_false_iff]
      intro hc
      exact h₁ ((String.isEmpty_iff t₁).mp hc)
    have e₂ : t₂.isEmpty = false := by
      rw [Bool.eq_false_iff]
      intro hc
      exact h₂ ((String.isEmpty_iff t₂).mp hc)
    simp only [searchM, e₁, e₂, Bool.false_eq_true, if_false, hlow]
  · exact ⟨rfl, by decide⟩

/-- Witness for `C7_search_case_insensitive`: the terms `"KEY1"` and
`"Key1"` agree after lowercasing, so they search identically. -/
theorem C7_search_case_insensitive_witness :
    ("KEY1" : String) ≠ "" ∧ ("Key1" : String) ≠ "" ∧
    lowerStr "KEY1" = lowerStr "Key1" ∧
    searchM [("Key1", "Value1")] "KEY1" = searchM [("Key1", "Value1")] "Key1" :=
  ⟨by decide, by decide, by decide,
   C7_search_case_insensitive.1 [("Key1", "Value1")] "KEY1" "Key1"
     (by decide) (by decide) (by decide)⟩

theorem searchM_bound (s : Store) (term : String) :
    (searchM s term).data.length ≤ 10 ∧ (searchM s term).data.Nodup := by
  simp only [searchM]
  split
  · simp
  · split
    · simp
    · constructor
      · refine le_trans (List.Sublist.length_le (List.dedup_sublist _)) ?_
        rw [List.length_map]
        exact List.length_take_le _ _
      · exact List.nodup_dedup _

/-- Claim C8: `list_keys()` returns at most 10 distinct keys, each currently
present in the store (the `ORDER BY RANDOM()` shuffle is modelled by an
arbitrary permutation of the distinct keys), and `search(term)` returns at
most 10 distinct keys — even when more than 10 keys exist or more than 10
rows match. -/
theorem C8_at_most_ten (s : Store) (shuffled : List String) (term : String)
    (hperm : shuffled.Perm (distinctKeys s)) :
    (listKeysM shuffled).data.length ≤ 10 ∧
    (listKeysM shuffled).data.Nodup ∧
    (∀ k ∈ (listKeysM shuffled).data, ∃ v, (k, v) ∈ s) ∧
    (searchM s term).data.length ≤ 10 ∧
    (searchM s term).data.Nodup := by
  refine ⟨?_, ?_, ?_, (searchM_bound s term).1, (searchM_bound s term).2⟩
  · exact List.length_take_le 10 shuffled
  · have hnd : shuffled.Nodup := (List.Perm.nodup_iff hperm).mpr (List.nodup_dedup _)
    exact List.Nodup.sublist (List.take_sublist _ _) hnd
  · intro k hk
    have h1 : k ∈ shuffled := (List.take_sublist _ _).mem hk
    have h2 : k ∈ distinctKeys s := (hperm.mem_iff).mp h1
    simp only [distinctKeys, List.mem_dedup, List.mem_map] at h2
    obtain ⟨⟨a, b⟩, hr, rfl⟩ := h2
    exact ⟨b, hr⟩

/-- Witness for `C8_at_most_ten`: a two-key store with the identity
shuffle. -/
theorem C8_at_most_ten_witness :
    (["k1", "k2"] : List String).Perm (distinctKeys [("k1", "a"), ("k2", "b")]) ∧
    ((listKeysM ["k1", "k2"]).data.length ≤ 10 ∧
      (listKeysM ["k1", "k2"]).data.Nodup ∧
      (∀ k ∈ (listKeysM ["k1", "k2"]).data, ∃ v, (k, v) ∈ [("k1", "a"), ("k2", "b")]) ∧
      (searchM [("k1", "a"), ("k2", "b")] "k").data.length ≤ 10 ∧
      (searchM [("k1", "a"), ("k2", "b")] "k").data.Nodup) :=
  ⟨by decide, C8_at_most_ten [("k1", "a"), ("k2", "b")] ["k1", "k2"] "k" (by decide)⟩

theorem deleteM_nodup {s : Store} {k : String} (hs : s.Nodup) :
    (deleteM s k).2.Nodup := by
  unfold deleteM
  split
  · exact hs
  · exact List.Nodup.filter _ hs

/-- Claim C9: The store never holds two identical `(key, value)` rows:
starting from a duplicate-free store, every state a repository operation
commits is duplicate-free again.  `get`, `list_keys` and `search` are
read-only (their embeddings return no store at all); `add`, `remove` and
`delete` preserve `Nodup`.  The uniqueness constraint of the schema
(modelled in `insertPair`, from the spec, since `sql/ddl.sql` is not among
the Python sources) makes any would-be duplicate insert fail the whole
transaction instead of committing a duplicate. -/
theorem C9_no_duplicate_pairs (s : Store) (k : String) (values : List String)
    (hs : s.Nodup) :
    (∀ r s', addM s k values = Except.ok (r, s') → s'.Nodup) ∧
    (∀ r s', removeM s k values = Except.ok (r, s') → s'.Nodup) ∧
    (deleteM s k).2.Nodup := by
  refine ⟨?_, ?_, deleteM_nodup hs⟩
  · intro r s' h
    simp only [addM] at h
    split at h
    · simp only [Except.ok.injEq, Prod.mk.injEq] at h
      exact h.2 ▸ hs
    · split at h
      · simp only [Except.ok.injEq, Prod.mk.injEq] at h
        exact h.2 ▸ hs
      · split at h
        · exact absurd h (by simp)
        · rename_i s'' heq
          simp only [Except.ok.injEq, Prod.mk.injEq] at h
          exact h.2 ▸ insertAll_nodup hs heq
  · intro r s' h
    simp only [removeM] at h
    split at h
    · simp only [Except.ok.injEq, Prod.mk.injEq] at h
      exact h.2 ▸ hs
    · split at h
      · simp only [Except.ok.injEq, Prod.mk.injEq] at h
        exact h.2 ▸ hs
      · split at h
        · simp only [Except.ok.injEq, Prod.mk.injEq] at h
          exact h.2 ▸ hs
        · split at h
          · simp only [Except.ok.injEq, Prod.mk.injEq] at h
            exact h.2 ▸ deleteM_nodup hs
          · split at h
            · exact absurd h (by simp)
            · rename_i s'' heq
              simp only [Except.ok.injEq, Prod.mk.injEq] at h
              exact h.2 ▸ insertAll_nodup (List.Nodup.filter _ hs) heq

/-- Witness for `C9_no_duplicate_pairs` on a concrete duplicate-free
store. -/
theorem C9_no_duplicate_pairs_witness :
    ([("k", "a")] : Store).Nodup ∧ (deleteM [("k", "a")] "k").2.Nodup :=
  ⟨by decide, (C9_no_duplicate_pairs [("k", "a")] "k" ["a"] (by decide)).2.2⟩

end Acrobot
